import Mathlib

/-!
Verification of the Sticker Sketchpad drawing application (`src/main.ts`).

The embedding models the drawing-command core of the application:

* `DisplayCommand` — the polymorphic drawable created by `makeLineCommand`
  (a marker stroke: a list of points plus the line width and color captured
  at creation) and `makeStickerCommand` (a positioned glyph with the
  rotation captured at creation).  In the source these are closures over
  mutable captured state; here they are a tagged union whose `drag` and
  `display` functions mirror the closures' bodies.
* `CanvasOp` — the device-space primitives a `CanvasRenderingContext2D`
  receives.  The 2D context's current transform is a uniform scale
  (the screen context has scale 1; the export context calls
  `ctx.scale(4, 4)`), so each primitive records its coordinates, stroke
  width and glyph scale with that uniform scale already applied, exactly
  as the rasterizer would see them.  The only `clearRect` the code issues
  covers the whole canvas, so `clearRect` is modelled as a full clear.
* `AppState` — the module-level mutable state: `drawing.commands`,
  `redoStack`, `currentPreview`, `cursor.active` and the current tool
  configuration.  The `mousedown`, Clear/Undo/Redo button and export
  handlers become pure state transformers; `randomColor`/`randomRotation`
  results are passed in as parameters since they are nondeterministic.
-/

/-- A 2D point (`{ x: number; y: number }` in the source).  Pointer
coordinates (`e.offsetX`/`e.offsetY`) are integral CSS pixels. -/
structure Point where
  x : Int
  y : Int
deriving DecidableEq, Repr

/-- Apply a uniform scale factor to a point, as the canvas transform
`ctx.scale(k, k)` does to user-space coordinates. -/
def scalePoint (k : Int) (p : Point) : Point :=
  ⟨k * p.x, k * p.y⟩

/-- The tagged-union form of the source's `DisplayCommand` closures.

* `line points lineWidth color` is the state captured by
  `makeLineCommand`: its growing `points` array plus the `lineWidth` and
  `color` arguments frozen at creation time.
* `sticker pos emoji rotation` is the state captured by
  `makeStickerCommand`: its mutable `pos` plus the `emoji` and `rotation`
  arguments frozen at creation time.  The rotation (radians) is carried
  as an exact rational; its value is never computed with, only stored and
  replayed. -/
inductive DisplayCommand where
  | line (points : List Point) (lineWidth : Int) (color : String)
  | sticker (pos : Point) (emoji : String) (rotation : ℚ)
deriving DecidableEq, Repr

/-- `makeLineCommand(x, y, lineWidth, color)`: starts with the single
point `{x, y}` and the captured style. -/
def makeLineCommand (x y : Int) (lineWidth : Int) (color : String) :
    DisplayCommand :=
  DisplayCommand.line [⟨x, y⟩] lineWidth color

/-- `makeStickerCommand(x, y, emoji, rotation)`. -/
def makeStickerCommand (x y : Int) (emoji : String) (rotation : ℚ) :
    DisplayCommand :=
  DisplayCommand.sticker ⟨x, y⟩ emoji rotation

/-- The `drag(x, y)` method: a line command pushes the new point onto its
`points` array; a sticker command replaces its position. -/
def DisplayCommand.drag (c : DisplayCommand) (x y : Int) : DisplayCommand :=
  match c with
  | .line points lineWidth color => .line (points ++ [⟨x, y⟩]) lineWidth color
  | .sticker _ emoji rotation => .sticker ⟨x, y⟩ emoji rotation

/-- Device-space primitives received by the rendering surface.

* `clearRect` — `ctx.clearRect(x, y, w, h)`; the code only ever clears the
  full canvas.
* `strokeSegment p1 p2 lineWidth color` — one segment of a stroked path
  (`moveTo(p1); lineTo(p2)` stroked with the given style), with the
  context's uniform scale already applied to the endpoints and width.
* `fillGlyph pos emoji rotation scale alpha` — `fillText(emoji, ...)` of a
  centered 32px glyph rotated by `rotation`, anchored at the device-space
  point `pos`, magnified by the context's uniform `scale`, with global
  alpha `alpha`.
* `strokeCircle center radius lineWidth color` — the marker preview's
  `ctx.arc(x, y, r/2, 0, 2π)` stroked circle. -/
inductive CanvasOp where
  | clearRect (x y w h : Int)
  | strokeSegment (p1 p2 : Point) (lineWidth : Int) (color : String)
  | fillGlyph (pos : Point) (emoji : String) (rotation : ℚ) (scale : Int)
      (alpha : ℚ)
  | strokeCircle (center : Point) (radius : ℚ) (lineWidth : Int)
      (color : String)
deriving DecidableEq, Repr

/-- The `display(ctx)` method of a `DisplayCommand`, on a context whose
current transform is the uniform scale `scale` (1 for the screen context,
4 for the export context).

For a line command (`makeLineCommand`'s `display`): if fewer than 2 points
have been recorded it returns without drawing; otherwise for each
`i` in `1 .. points.length - 1` it emits the segment from `points[i-1]`
to `points[i]`, stroked with the captured `lineWidth` and `color` (the
transform scales both the endpoints and the rendered stroke width).

For a sticker command (`makeStickerCommand`'s `display`):
`save ; translate(pos) ; rotate(rotation) ; fillText(emoji, 0, 0) ;
restore` — a single glyph anchored at the transformed position. -/
def DisplayCommand.display (scale : Int) (c : DisplayCommand) :
    List CanvasOp :=
  match c with
  | .line points lineWidth color =>
      if points.length < 2 then []
      else
        (points.zip points.tail).map fun p =>
          CanvasOp.strokeSegment (scalePoint scale p.1) (scalePoint scale p.2)
            (scale * lineWidth) color
  | .sticker pos emoji rotation =>
      [CanvasOp.fillGlyph (scalePoint scale pos) emoji rotation scale 1]

/-- The tagged-union form of the source's `ToolPreview` objects:
`makeMarkerPreview(x, y, r, color)` and
`makeStickerPreview(x, y, emoji, rotation)`. -/
inductive ToolPreview where
  | markerPreview (x y : Int) (r : Int) (color : String)
  | stickerPreview (x y : Int) (emoji : String) (rotation : ℚ)
deriving DecidableEq, Repr

/-- The `draw(ctx)` method of a preview (always on the screen context,
scale 1): the marker preview strokes a circle of radius `r / 2` with line
width 2 in the current color; the sticker preview fills the glyph at half
alpha. -/
def ToolPreview.draw : ToolPreview → List CanvasOp
  | .markerPreview x y r color =>
      [CanvasOp.strokeCircle ⟨x, y⟩ ((r : ℚ) / 2) 2 color]
  | .stickerPreview x y emoji rotation =>
      [CanvasOp.fillGlyph ⟨x, y⟩ emoji rotation 1 (1 / 2)]

/-- The current tool kind (`currentTool: "marker" | "sticker"`). -/
inductive Tool where
  | marker
  | sticker
deriving DecidableEq, Repr

/-- The module-level tool configuration variables. -/
structure ToolState where
  currentLineWidth : Int
  currentTool : Tool
  currentSticker : String
  currentColor : String
  currentRotation : ℚ
deriving DecidableEq, Repr

/-- The module-level mutable state of the application:
`drawing.commands`, `redoStack`, `currentCommand`, `currentPreview`,
`cursor.active`, and the tool configuration. -/
structure AppState where
  drawing : List DisplayCommand
  redoStack : List DisplayCommand
  currentCommand : Option DisplayCommand
  currentPreview : Option ToolPreview
  cursorActive : Bool
  toolState : ToolState
deriving DecidableEq, Repr

/-- The `mousedown` handler's choice of new command: a line command under
the marker tool (capturing `currentLineWidth` and `currentColor`) and a
sticker command otherwise (capturing `currentSticker` and
`currentRotation`). -/
def mousedownCommand (s : AppState) (x y : Int) : DisplayCommand :=
  if s.toolState.currentTool = Tool.marker then
    makeLineCommand x y s.toolState.currentLineWidth s.toolState.currentColor
  else
    makeStickerCommand x y s.toolState.currentSticker
      s.toolState.currentRotation

/-- The `mousedown` handler: activates the cursor, truncates `redoStack`
to length 0, creates the new command from the current tool configuration,
and pushes it onto `drawing.commands`. -/
def mousedown (s : AppState) (x y : Int) : AppState :=
  { s with
    cursorActive := true
    redoStack := []
    currentCommand := some (mousedownCommand s x y)
    drawing := s.drawing ++ [mousedownCommand s x y] }

/-- The `mouseup` handler: deactivates the cursor and drops the reference
to the active command. -/
def mouseup (s : AppState) : AppState :=
  { s with cursorActive := false, currentCommand := none }

/-- The Clear button handler: replaces `drawing.commands` with `[]` and
truncates `redoStack` to length 0. -/
def clearClick (s : AppState) : AppState :=
  { s with drawing := [], redoStack := [] }

/-- The Undo button handler: if `drawing.commands` is nonempty, pops its
last command and pushes it onto `redoStack`; otherwise does nothing. -/
def undoClick (s : AppState) : AppState :=
  if h : s.drawing ≠ [] then
    { s with
      drawing := s.drawing.dropLast
      redoStack := s.redoStack ++ [s.drawing.getLast h] }
  else s

/-- The Redo button handler: if `redoStack` is nonempty, pops its last
command and pushes it onto `drawing.commands`; otherwise does nothing. -/
def redoClick (s : AppState) : AppState :=
  if h : s.redoStack ≠ [] then
    { s with
      drawing := s.drawing ++ [s.redoStack.getLast h]
      redoStack := s.redoStack.dropLast }
  else s

/-- Running one emitted primitive against the visible surface contents:
a full-canvas `clearRect` erases everything drawn so far, any other
primitive is painted on top of what is already there. -/
def runOp (surface : List CanvasOp) (op : CanvasOp) : List CanvasOp :=
  match op with
  | CanvasOp.clearRect _ _ _ _ => []
  | op => surface ++ [op]

/-- Running a list of primitives left-to-right against the surface. -/
def runOps (surface : List CanvasOp) (ops : List CanvasOp) : List CanvasOp :=
  ops.foldl runOp surface

/-- Optional preview drawing (`currentPreview && currentPreview.draw`). -/
def previewOps : Option ToolPreview → List CanvasOp
  | some p => p.draw
  | none => []

/-- The primitives emitted by one run of the `drawing-changed` listener:
`ctx.clearRect(0, 0, canvas.width, canvas.height)` on the 256×256 canvas,
then `cmd.display(ctx)` for each committed command in order, then
`currentPreview.draw(ctx)` when `!cursor.active && currentPreview`. -/
def renderOps (s : AppState) : List CanvasOp :=
  CanvasOp.clearRect 0 0 256 256 ::
    (s.drawing.flatMap (DisplayCommand.display 1) ++
      (if s.cursorActive = false then previewOps s.currentPreview else []))

/-- One run of the `drawing-changed` listener: its emitted primitives
applied to the current surface contents. -/
def onDrawingChanged (surface : List CanvasOp) (s : AppState) :
    List CanvasOp :=
  runOps surface (renderOps s)

/-- The export button's observable result: the offscreen canvas
dimensions, the primitives replayed onto it, and the download
filename. -/
structure ExportResult where
  width : Int
  height : Int
  ops : List CanvasOp
  filename : String
deriving DecidableEq, Repr

/-- The export button handler: `scale = 4`, an offscreen canvas of
`canvas.width * scale` by `canvas.height * scale` (the on-screen canvas is
256×256), `exportCtx.scale(scale, scale)`, then `cmd.display(exportCtx)`
for every committed command, downloaded as `sticker_sketchpad.png`. -/
def exportClick (cmds : List DisplayCommand) : ExportResult :=
  let scale : Int := 4
  { width := 256 * scale
    height := 256 * scale
    ops := cmds.flatMap (DisplayCommand.display scale)
    filename := "sticker_sketchpad.png" }

/-- Uniform geometric scaling of a device-space primitive by a factor
`k` — the comparison function for the export claim: coordinates, stroke
widths, radii and glyph scales all multiply by `k`. -/
def scaleOp (k : Int) : CanvasOp → CanvasOp
  | .clearRect x y w h => .clearRect (k * x) (k * y) (k * w) (k * h)
  | .strokeSegment p1 p2 lineWidth color =>
      .strokeSegment (scalePoint k p1) (scalePoint k p2) (k * lineWidth) color
  | .fillGlyph pos emoji rotation scale alpha =>
      .fillGlyph (scalePoint k pos) emoji rotation (k * scale) alpha
  | .strokeCircle center radius lineWidth color =>
      .strokeCircle (scalePoint k center) ((k : ℚ) * radius) (k * lineWidth)
        color

/-- Scaling by 1 (the screen context's identity transform) is the
identity. -/
theorem scalePoint_one (p : Point) : scalePoint 1 p = p := by
  simp [scalePoint]

/-- `display` on a context scaled by `k` is the uniform `k`-scaling of
`display` on the unscaled screen context. -/
theorem display_one_scale (k : Int) (c : DisplayCommand) :
    DisplayCommand.display k c =
      (DisplayCommand.display 1 c).map (scaleOp k) := by
  cases c with
  | line points lineWidth color =>
      by_cases h : points.length < 2
      · simp [DisplayCommand.display, h]
      · simp only [DisplayCommand.display, if_neg h, List.map_map]
        refine List.map_congr_left fun p _ => ?_
        simp [scaleOp, scalePoint, Function.comp, mul_assoc]
  | sticker pos emoji rotation =>
      simp [DisplayCommand.display, scaleOp, scalePoint]

/-- Whether a primitive paints (rather than clears). -/
def CanvasOp.isDraw : CanvasOp → Bool
  | .clearRect _ _ _ _ => false
  | _ => true

theorem runOp_draw (surface : List CanvasOp) (op : CanvasOp)
    (h : op.isDraw = true) : runOp surface op = surface ++ [op] := by
  cases op with
  | clearRect x y w hh => simp [CanvasOp.isDraw] at h
  | strokeSegment p1 p2 lw c => rfl
  | fillGlyph pos e r sc a => rfl
  | strokeCircle c r lw col => rfl

theorem runOps_draws (ops : List CanvasOp) (surface : List CanvasOp)
    (h : ∀ op ∈ ops, op.isDraw = true) :
    runOps surface ops = surface ++ ops := by
  induction ops generalizing surface with
  | nil => simp [runOps]
  | cons op rest ih =>
      have hop : op.isDraw = true := h op (List.mem_cons_self op rest)
      have hrest : ∀ o ∈ rest, o.isDraw = true := fun o ho =>
        h o (List.mem_cons_of_mem op ho)
      have step : runOps surface (op :: rest) = runOps (surface ++ [op]) rest := by
        simp [runOps, List.foldl_cons, runOp_draw surface op hop]
      rw [step, ih (surface ++ [op]) hrest]
      simp

theorem display_isDraw (k : Int) (c : DisplayCommand) :
    ∀ op ∈ DisplayCommand.display k c, op.isDraw = true := by
  intro op hop
  cases c with
  | line points lw col =>
      by_cases h : points.length < 2
      · simp [DisplayCommand.display, h] at hop
      · simp only [DisplayCommand.display, if_neg h] at hop
        obtain ⟨p, _, rfl⟩ := List.mem_map.1 hop
        rfl
  | sticker pos e r =>
      simp [DisplayCommand.display] at hop
      subst hop
      rfl

theorem previewOps_isDraw (p : Option ToolPreview) :
    ∀ op ∈ previewOps p, op.isDraw = true := by
  intro op hop
  cases p with
  | none => simp [previewOps] at hop
  | some pv =>
      cases pv with
      | markerPreview x y r color =>
          simp [previewOps, ToolPreview.draw] at hop
          subst hop; rfl
      | stickerPreview x y emoji rotation =>
          simp [previewOps, ToolPreview.draw] at hop
          subst hop; rfl

/-- The surface left by one run of the `drawing-changed` listener:
independent of what was on the surface before (the listener clears
first), the committed commands' primitives in order, then the preview's
primitives exactly when the cursor is not active. -/
theorem onDrawingChanged_eq (surface : List CanvasOp) (s : AppState) :
    onDrawingChanged surface s =
      s.drawing.flatMap (DisplayCommand.display 1) ++
        (if s.cursorActive = false then previewOps s.currentPreview
         else []) := by
  have hdraws : ∀ op ∈ s.drawing.flatMap (DisplayCommand.display 1) ++
      (if s.cursorActive = false then previewOps s.currentPreview else []),
      op.isDraw = true := by
    intro op hop
    rcases List.mem_append.1 hop with h | h
    · obtain ⟨c, _, hc⟩ := List.mem_flatMap.1 h
      exact display_isDraw 1 c op hc
    · by_cases hc : s.cursorActive = false
      · rw [if_pos hc] at h
        exact previewOps_isDraw _ op h
      · rw [if_neg hc] at h
        simp at h
  have h1 : onDrawingChanged surface s =
      runOps [] (s.drawing.flatMap (DisplayCommand.display 1) ++
        (if s.cursorActive = false then previewOps s.currentPreview
         else [])) := rfl
  rw [h1, runOps_draws _ _ hdraws]
  simp

/-- Indexing the zip of a list with its own tail picks out the pair of
consecutive elements at positions `i` and `i + 1`. -/
theorem zip_tail_getElem? {α : Type} (l : List α) :
    ∀ (i : ℕ) (p q : α), l[i]? = some p → l[i + 1]? = some q →
      (l.zip l.tail)[i]? = some (p, q) := by
  induction l with
  | nil => intro i p q hp _; simp at hp
  | cons a t ih =>
      intro i p q hp hq
      cases t with
      | nil =>
          cases i with
          | zero => simp at hq
          | succ j => simp at hp
      | cons b t' =>
          cases i with
          | zero =>
              simp only [List.getElem?_cons_zero, Option.some.injEq] at hp
              simp only [List.getElem?_cons_succ, List.getElem?_cons_zero,
                Option.some.injEq] at hq
              simp [List.zip, hp, hq]
          | succ j =>
              have hp' : (b :: t')[j]? = some p := by
                simpa using hp
              have hq' : (b :: t')[j + 1]? = some q := by
                simpa using hq
              have := ih j p q hp' hq'
              simpa [List.zip] using this

/-- Sample values for concrete instantiations: a two-point stroke, a
sticker, a degenerate one-point stroke, and two distinct tool
configurations. -/
def sampleA : DisplayCommand := DisplayCommand.line [⟨0, 0⟩, ⟨1, 1⟩] 2 "c"

def sampleB : DisplayCommand := DisplayCommand.sticker ⟨3, 4⟩ "s" 0

def sampleC : DisplayCommand := DisplayCommand.line [⟨5, 5⟩] 6 "d"

def sampleT : ToolState := ⟨2, Tool.marker, "s", "c", 0⟩

def sampleT2 : ToolState := ⟨6, Tool.sticker, "t", "d", 1⟩

def sampleState : AppState :=
  ⟨[sampleA, sampleB], [sampleC], none, none, false, sampleT⟩

/-- C1: for every history state with a nonempty committed sequence,
`undo()` immediately followed by `redo()` (no intervening commit)
restores `drawing.commands` to exactly its pre-undo sequence. -/
theorem undo_redo_inverse (s : AppState) (h : s.drawing ≠ []) :
    (redoClick (undoClick s)).drawing = s.drawing := by
  have hu : undoClick s =
      { s with drawing := s.drawing.dropLast,
               redoStack := s.redoStack ++ [s.drawing.getLast h] } := by
    rw [undoClick, dif_pos h]
  have hne : s.redoStack ++ [s.drawing.getLast h] ≠ [] := by simp
  rw [hu]
  simp only [redoClick, dif_pos hne]
  simp [List.getLast_append, List.dropLast_append_getLast h]

theorem undo_redo_inverse_witness :
    sampleState.drawing ≠ [] ∧
      (redoClick (undoClick sampleState)).drawing = sampleState.drawing :=
  ⟨by decide, undo_redo_inverse sampleState (by decide)⟩

/-- C2: from every history state (in particular after any number of
undos), the `mousedown` commit appends the newly created command to the
end of `drawing.commands` and leaves `redoStack` empty. -/
theorem mousedown_commit (s : AppState) (x y : Int) :
    (mousedown s x y).drawing = s.drawing ++ [mousedownCommand s x y] ∧
      (mousedown s x y).redoStack = [] :=
  ⟨rfl, rfl⟩

/-- C3: the Undo and Redo handlers are total: on an empty committed
sequence `undo` is a no-op and on an empty redo stack `redo` is a no-op
(whole state unchanged); otherwise `undo` moves the last committed
command to the top of the redo stack and `redo` moves the top of the
redo stack to the end of the committed sequence. -/
theorem undo_redo_total (s : AppState) :
    (s.drawing = [] → undoClick s = s) ∧
    (s.redoStack = [] → redoClick s = s) ∧
    (∀ h : s.drawing ≠ [],
      (undoClick s).drawing = s.drawing.dropLast ∧
      (undoClick s).redoStack = s.redoStack ++ [s.drawing.getLast h]) ∧
    (∀ h : s.redoStack ≠ [],
      (redoClick s).drawing = s.drawing ++ [s.redoStack.getLast h] ∧
      (redoClick s).redoStack = s.redoStack.dropLast) := by
  refine ⟨fun h => ?_, fun h => ?_, fun h => ?_, fun h => ?_⟩
  · simp [undoClick, h]
  · simp [redoClick, h]
  · simp [undoClick, dif_pos h]
  · simp [redoClick, dif_pos h]

theorem undo_redo_total_witness :
    (undoClick ⟨[], [], none, none, false, sampleT⟩ =
      ⟨[], [], none, none, false, sampleT⟩) ∧
    (redoClick ⟨[sampleA], [], none, none, false, sampleT⟩ =
      ⟨[sampleA], [], none, none, false, sampleT⟩) ∧
    ((undoClick sampleState).drawing = [sampleA] ∧
      (undoClick sampleState).redoStack = [sampleC, sampleB]) ∧
    ((redoClick sampleState).drawing = [sampleA, sampleB, sampleC] ∧
      (redoClick sampleState).redoStack = []) :=
  ⟨(undo_redo_total ⟨[], [], none, none, false, sampleT⟩).1 rfl,
   (undo_redo_total ⟨[sampleA], [], none, none, false, sampleT⟩).2.1 rfl,
   (undo_redo_total sampleState).2.2.1 (by decide),
   (undo_redo_total sampleState).2.2.2 (by decide)⟩

/-- C4: the Clear handler empties both the committed sequence and the
redo stack, and an immediately following Undo or Redo is a no-op on the
resulting state. -/
theorem clear_then_noop (s : AppState) :
    (clearClick s).drawing = [] ∧ (clearClick s).redoStack = [] ∧
    undoClick (clearClick s) = clearClick s ∧
    redoClick (clearClick s) = clearClick s := by
  refine ⟨rfl, rfl, ?_, ?_⟩
  · simp [undoClick, clearClick]
  · simp [redoClick, clearClick]

/-- C5: a line command's `display` is a silent no-op when fewer than 2
points are recorded; with 2 or more points it emits exactly one stroked
segment per consecutive pair of recorded points, in recorded order, so
that the segment at index `i` connects `points[i]` to `points[i + 1]`
with the command's own width and color. -/
theorem stroke_display_segments (points : List Point) (lineWidth : Int)
    (color : String) :
    (points.length < 2 →
      DisplayCommand.display 1 (DisplayCommand.line points lineWidth color)
        = []) ∧
    (2 ≤ points.length →
      (DisplayCommand.display 1
        (DisplayCommand.line points lineWidth color)).length =
          points.length - 1) ∧
    (∀ (i : ℕ) (p q : Point), points[i]? = some p →
      points[i + 1]? = some q →
      (DisplayCommand.display 1
        (DisplayCommand.line points lineWidth color))[i]? =
          some (CanvasOp.strokeSegment p q lineWidth color)) := by
  refine ⟨fun h => ?_, fun h => ?_, fun i p q hp hq => ?_⟩
  · simp [DisplayCommand.display, h]
  · have h2 : ¬ points.length < 2 := by omega
    simp only [DisplayCommand.display, if_neg h2, List.length_map,
      List.length_zip, List.length_tail]
    omega
  · have hq' : i + 1 < points.length := by
      rcases List.getElem?_eq_some.1 hq with ⟨hlt, _⟩
      exact hlt
    have h2 : ¬ points.length < 2 := by omega
    simp only [DisplayCommand.display, if_neg h2, List.getElem?_map,
      zip_tail_getElem? points i p q hp hq]
    simp [scalePoint_one]

theorem stroke_display_segments_witness :
    DisplayCommand.display 1
        (DisplayCommand.line [⟨0, 0⟩] 2 "c") = [] ∧
    (DisplayCommand.display 1
        (DisplayCommand.line [⟨0, 0⟩, ⟨1, 1⟩, ⟨2, 0⟩] 2 "c")).length = 2 ∧
    (DisplayCommand.display 1
        (DisplayCommand.line [⟨0, 0⟩, ⟨1, 1⟩, ⟨2, 0⟩] 2 "c"))[1]? =
      some (CanvasOp.strokeSegment ⟨1, 1⟩ ⟨2, 0⟩ 2 "c") :=
  ⟨(stroke_display_segments [⟨0, 0⟩] 2 "c").1 (by decide),
   (stroke_display_segments [⟨0, 0⟩, ⟨1, 1⟩, ⟨2, 0⟩] 2 "c").2.1 (by decide),
   (stroke_display_segments [⟨0, 0⟩, ⟨1, 1⟩, ⟨2, 0⟩] 2 "c").2.2 1 ⟨1, 1⟩
     ⟨2, 0⟩ (by decide) (by decide)⟩

/-- C6: the `drawing-changed` listener first clears the surface (its
first emitted primitive is the full-canvas clear, and the resulting
surface is independent of the previous surface contents), then paints
each committed command's primitives in insertion order, and paints the
preview last and only when no draw session is active. -/
theorem render_loop_order (surface₁ surface₂ : List CanvasOp)
    (s : AppState) :
    (renderOps s).head? = some (CanvasOp.clearRect 0 0 256 256) ∧
    onDrawingChanged surface₁ s = onDrawingChanged surface₂ s ∧
    onDrawingChanged surface₁ s =
      s.drawing.flatMap (DisplayCommand.display 1) ++
        (if s.cursorActive = false then previewOps s.currentPreview
         else []) := by
  refine ⟨rfl, ?_, onDrawingChanged_eq surface₁ s⟩
  rw [onDrawingChanged_eq surface₁ s, onDrawingChanged_eq surface₂ s]

/-- C7: the render loop is idempotent: running the `drawing-changed`
listener a second time with unchanged state leaves the surface exactly
as after the first run. -/
theorem render_idempotent (surface : List CanvasOp) (s : AppState) :
    onDrawingChanged (onDrawingChanged surface s) s =
      onDrawingChanged surface s := by
  rw [onDrawingChanged_eq, onDrawingChanged_eq]

/-- C8: rendering reads only the styles recorded inside the committed
commands, never the ambient tool configuration: two states with the same
committed sequence, preview and session flag — but arbitrary, possibly
different, tool configurations — render to identical surfaces. -/
theorem render_tool_independent (surface : List CanvasOp)
    (s₁ s₂ : AppState) (hdraw : s₁.drawing = s₂.drawing)
    (hprev : s₁.currentPreview = s₂.currentPreview)
    (hact : s₁.cursorActive = s₂.cursorActive) :
    onDrawingChanged surface s₁ = onDrawingChanged surface s₂ := by
  rw [onDrawingChanged_eq, onDrawingChanged_eq, hdraw, hprev, hact]

theorem render_tool_independent_witness :
    (AppState.mk [sampleA, sampleB] [] none none false sampleT).drawing =
      (AppState.mk [sampleA, sampleB] [] none none false sampleT2).drawing ∧
    onDrawingChanged []
        (AppState.mk [sampleA, sampleB] [] none none false sampleT) =
      onDrawingChanged []
        (AppState.mk [sampleA, sampleB] [] none none false sampleT2) :=
  ⟨rfl,
   render_tool_independent []
     (AppState.mk [sampleA, sampleB] [] none none false sampleT)
     (AppState.mk [sampleA, sampleB] [] none none false sampleT2)
     rfl rfl rfl⟩

/-- C9: the export handler replays the committed sequence at the fixed
scale factor 4 onto an offscreen 1024×1024 surface (4× the 256×256 base
canvas), produces primitives that are the uniform 4× scaling of the
on-screen primitives, and downloads under `sticker_sketchpad.png`. -/
theorem export_scale_spec (cmds : List DisplayCommand) :
    (exportClick cmds).width = 1024 ∧
    (exportClick cmds).height = 1024 ∧
    (exportClick cmds).filename = "sticker_sketchpad.png" ∧
    (exportClick cmds).ops =
      (cmds.flatMap (DisplayCommand.display 1)).map (scaleOp 4) := by
  refine ⟨rfl, rfl, rfl, ?_⟩
  show cmds.flatMap (DisplayCommand.display 4) = _
  induction cmds with
  | nil => rfl
  | cons c cs ih =>
      simp only [List.flatMap_cons, List.map_append, ih,
        display_one_scale 4 c]

/-- Moving one element between the ends of two lists preserves the
combined multiset. -/
theorem conserve_aux (l rs : List DisplayCommand) (a : DisplayCommand) :
    ((l : Multiset DisplayCommand) +
        ((rs ++ [a] : List DisplayCommand) : Multiset DisplayCommand)) =
      (((l ++ [a] : List DisplayCommand) : Multiset DisplayCommand) +
        (rs : Multiset DisplayCommand)) := by
  rw [Multiset.coe_add, Multiset.coe_add, Multiset.coe_eq_coe,
    List.append_assoc]
  exact List.Perm.append_left l List.perm_append_comm

/-- C10: Undo and Redo conserve the drawables: each leaves the combined
contents of the committed sequence and the redo stack unchanged as a
multiset (so in particular the sum of their lengths is unchanged and no
command is lost or duplicated). -/
theorem undo_redo_conserve (s : AppState) :
    (((undoClick s).drawing : Multiset DisplayCommand) +
        ((undoClick s).redoStack : Multiset DisplayCommand) =
      (s.drawing : Multiset DisplayCommand) +
        (s.redoStack : Multiset DisplayCommand)) ∧
    (((redoClick s).drawing : Multiset DisplayCommand) +
        ((redoClick s).redoStack : Multiset DisplayCommand) =
      (s.drawing : Multiset DisplayCommand) +
        (s.redoStack : Multiset DisplayCommand)) ∧
    ((undoClick s).drawing.length + (undoClick s).redoStack.length =
      s.drawing.length + s.redoStack.length) ∧
    ((redoClick s).drawing.length + (redoClick s).redoStack.length =
      s.drawing.length + s.redoStack.length) := by
  refine ⟨?_, ?_, ?_, ?_⟩
  · by_cases h : s.drawing ≠ []
    · simp only [undoClick, dif_pos h]
      rw [conserve_aux, List.dropLast_append_getLast h]
    · simp [undoClick, h]
  · by_cases h : s.redoStack ≠ []
    · simp only [redoClick, dif_pos h]
      rw [← conserve_aux, List.dropLast_append_getLast h]
    · simp [redoClick, h]
  · by_cases h : s.drawing ≠ []
    · have hpos : 0 < s.drawing.length := List.length_pos.2 h
      simp only [undoClick, dif_pos h, List.length_dropLast,
        List.length_append, List.length_cons, List.length_nil]
      omega
    · simp [undoClick, h]
  · by_cases h : s.redoStack ≠ []
    · have hpos : 0 < s.redoStack.length := List.length_pos.2 h
      simp only [redoClick, dif_pos h, List.length_dropLast,
        List.length_append, List.length_cons, List.length_nil]
      omega
    · simp [redoClick, h]
